import Mathlib

/-!
# Verification of the langchain-skillkit skill/tool-gating layer

Shallow embedding of the repository's skill-loading and tool-gating code
(`langchain_agent_skills` and `langchain_skillkit` packages).

Encoding conventions:

* Filesystem paths are lists of path segments (`List String`), read as an
  absolute path `/seg0/seg1/...`.  Segments of real filesystem entries never
  contain the separator character, and a real directory listing never
  contains `""`, `"."` or `".."`; this is captured by the `FSys.WFb`
  well-formedness predicate used as a hypothesis where needed.
* `Path.resolve()` (without symbolic links) is `resolvePath`: it eliminates
  `"."` and `".."` components left to right.
* The containment check `str(resolved).startswith(str(base) + os.sep)` from
  `_validate_path_traversal` is `startsWithBaseSep`: on separator-free
  segments, appending `os.sep` to `base` makes the string test equivalent to
  "`base` is a strict segment-prefix of `resolved`".
* Python regexes are translated character-wise, including the `re` quirk
  that `$` also matches just before a single trailing newline.
-/

namespace SkillGate

/-! ## Path model -/

/-- One step of `Path.resolve()` normalisation (no symlinks): `"."` is
dropped, `".."` removes the last accumulated segment (at the root it is a
no-op, as in POSIX), any other segment is appended. -/
def resolveGo : List String → List String → List String
  | acc, [] => acc
  | acc, c :: cs =>
    if c = "." then resolveGo acc cs
    else if c = ".." then resolveGo acc.dropLast cs
    else resolveGo (acc ++ [c]) cs

/-- Python `Path(p).resolve()` on an absolute path, as segment normalisation. -/
def resolvePath (p : List String) : List String := resolveGo [] p

/-- A path segment that denotes a real directory entry: nonempty, not a dot
component, and free of the separator. -/
def normalSeg (s : String) : Bool :=
  s ≠ "" && s ≠ "." && s ≠ ".." && !(s.data.contains '/')

/-- The test `str(resolved).startswith(str(base) + os.sep)` from
`_validate_path_traversal`, in segment form: `base` is a strict prefix of
`resolved`. -/
def startsWithBaseSep (resolved base : List String) : Bool :=
  base.isPrefixOf resolved && decide (base.length < resolved.length)

/-- Strict containment of a path below a base directory (the property the
traversal check is meant to establish). -/
def strictlyInside (p base : List String) : Prop :=
  base <+: p ∧ base.length < p.length

instance (p base : List String) : Decidable (strictlyInside p base) := by
  unfold strictlyInside; infer_instance

/-! ## The two input-validation regexes

The source compiles the patterns `SKILL_NAME_PATTERN` (lowercase letter,
then up to 63 of lowercase/digit/underscore/hyphen, anchored) and
`REFERENCE_NAME_PATTERN` (1 to 255 of alnum/underscore/dot/hyphen, anchored).
Python's `re.match` anchors at the start; the dollar anchor matches at the
end of the string or just before a terminating newline. -/

def isSkillHeadChar (c : Char) : Bool := 'a' ≤ c && c ≤ 'z'

def isSkillBodyChar (c : Char) : Bool :=
  ('a' ≤ c && c ≤ 'z') || ('0' ≤ c && c ≤ '9') || c = '_' || c = '-'

/-- The body `[a-z][a-z0-9_-]{0,63}` matched against a whole character list. -/
def skillNameCore : List Char → Bool
  | [] => false
  | c :: cs => isSkillHeadChar c && decide (cs.length ≤ 63) && cs.all isSkillBodyChar

/-- Account for `$` matching before one trailing newline. -/
def withDollarNewline (core : List Char → Bool) (s : String) : Bool :=
  core s.data ||
    (match s.data.getLast? with
     | some c => c = '\n' && core s.data.dropLast
     | none => false)

/-- Whether `SKILL_NAME_PATTERN.match(skill_name)` is truthy. -/
def skillNameMatch (s : String) : Bool := withDollarNewline skillNameCore s

def isRefChar (c : Char) : Bool :=
  ('a' ≤ c && c ≤ 'z') || ('A' ≤ c && c ≤ 'Z') || ('0' ≤ c && c ≤ '9') ||
    c = '_' || c = '.' || c = '-'

/-- The body `[a-zA-Z0-9_.-]{1,255}` matched against a whole character list. -/
def refNameCore (l : List Char) : Bool :=
  decide (1 ≤ l.length) && decide (l.length ≤ 255) && l.all isRefChar

/-- Whether `REFERENCE_NAME_PATTERN.match(file_name)` is truthy. -/
def refNameMatch (s : String) : Bool := withDollarNewline refNameCore s

/-! ## Basic path lemmas -/

theorem resolveGo_append (acc : List String) (xs ys : List String) :
    resolveGo acc (xs ++ ys) = resolveGo (resolveGo acc xs) ys := by
  induction xs generalizing acc with
  | nil => simp [resolveGo]
  | cons c cs ih =>
    simp only [List.cons_append, resolveGo]
    split
    · exact ih acc
    · split
      · exact ih acc.dropLast
      · exact ih (acc ++ [c])

theorem resolveGo_nil (acc : List String) : resolveGo acc [] = acc := rfl

theorem resolveGo_normal_single (acc : List String) (s : String)
    (h1 : s ≠ ".") (h2 : s ≠ "..") :
    resolveGo acc [s] = acc ++ [s] := by
  simp [resolveGo, h1, h2]

theorem resolveGo_dot (acc : List String) : resolveGo acc ["."] = acc := by
  simp [resolveGo]

theorem resolveGo_dotdot (acc : List String) :
    resolveGo acc [".."] = acc.dropLast := by
  simp [resolveGo]

/-- A validated skill name is never a dot component (its first character is
a lowercase letter). -/
theorem skillNameMatch_ne_dot {s : String} (h : skillNameMatch s = true) :
    s ≠ "." ∧ s ≠ ".." ∧ s ≠ "" := by
  refine ⟨?_, ?_, ?_⟩ <;> rintro rfl <;> revert h <;> decide

/-! ## Python sorted sets

Python `sorted(set(l))` is the list of distinct elements of `l` in
ascending order; `sorted(l)` sorts keeping duplicates.  Python compares
strings lexicographically by Unicode code point, embedded here as the
explicit boolean comparison `lexLeB` (kept kernel-computable on purpose);
the sort algorithm itself is irrelevant to the result, so insertion sort
stands in for it. -/

/-- Lexicographic code-point comparison of character lists: how Python
compares strings. -/
def lexLeB : List Char → List Char → Bool
  | [], _ => true
  | _ :: _, [] => false
  | a :: as, b :: bs =>
    if a.toNat < b.toNat then true
    else if b.toNat < a.toNat then false
    else lexLeB as bs

/-- Python string comparison `a <= b`, the order used by `sorted`. -/
def strLe (a b : String) : Prop := lexLeB a.data b.data = true

instance : DecidableRel strLe := fun a b => by unfold strLe; infer_instance

/-- Python `sorted(l)` for a list of strings. -/
def pySorted (l : List String) : List String := l.insertionSort strLe

/-- Python `sorted(set(l))`. -/
def pySortedSet (l : List String) : List String := pySorted l.dedup

theorem lexLeB_total : ∀ as bs : List Char, lexLeB as bs = true ∨ lexLeB bs as = true
  | [], _ => .inl rfl
  | _ :: _, [] => .inr rfl
  | a :: as, b :: bs => by
    by_cases hab : a.toNat < b.toNat
    · exact .inl (by simp [lexLeB, hab])
    · by_cases hba : b.toNat < a.toNat
      · exact .inr (by simp [lexLeB, hba])
      · rcases lexLeB_total as bs with h | h
        · exact .inl (by simp [lexLeB, hab, hba, h])
        · exact .inr (by simp [lexLeB, hab, hba, h])

theorem lexLeB_trans : ∀ as bs cs : List Char,
    lexLeB as bs = true → lexLeB bs cs = true → lexLeB as cs = true
  | [], _, _, _, _ => rfl
  | _ :: _, [], _, h1, _ => by simp [lexLeB] at h1
  | _ :: _, _ :: _, [], _, h2 => by simp [lexLeB] at h2
  | a :: as, b :: bs, c :: cs, h1, h2 => by
    by_cases hba : b.toNat < a.toNat
    · simp [lexLeB, show ¬a.toNat < b.toNat by omega, hba] at h1
    · by_cases hcb : c.toNat < b.toNat
      · simp [lexLeB, show ¬b.toNat < c.toNat by omega, hcb] at h2
      · by_cases hab : a.toNat < b.toNat
        · simp [lexLeB, show a.toNat < c.toNat by omega]
        · by_cases hbc : b.toNat < c.toNat
          · simp [lexLeB, show a.toNat < c.toNat by omega]
          · simp only [lexLeB, hab, if_false, hba, if_false] at h1
            simp only [lexLeB, hbc, if_false, hcb, if_false] at h2
            simp [lexLeB, show ¬a.toNat < c.toNat by omega,
              show ¬c.toNat < a.toNat by omega, lexLeB_trans as bs cs h1 h2]

theorem lexLeB_antisymm : ∀ as bs : List Char,
    lexLeB as bs = true → lexLeB bs as = true → as = bs
  | [], [], _, _ => rfl
  | [], _ :: _, _, h2 => by simp [lexLeB] at h2
  | _ :: _, [], h1, _ => by simp [lexLeB] at h1
  | a :: as, b :: bs, h1, h2 => by
    by_cases hab : a.toNat < b.toNat
    · simp [lexLeB, show ¬b.toNat < a.toNat by omega, hab] at h2
    · by_cases hba : b.toNat < a.toNat
      · simp [lexLeB, hab, hba] at h1
      · simp only [lexLeB, hab, if_false, hba, if_false] at h1 h2
        have hn : a.toNat = b.toNat := by omega
        have hc : a = b := by
          have := congrArg Char.ofNat hn
          rwa [Char.ofNat_toNat, Char.ofNat_toNat] at this
        rw [hc, lexLeB_antisymm as bs h1 h2]

instance : IsTotal String strLe := ⟨fun a b => lexLeB_total a.data b.data⟩

instance : IsTrans String strLe :=
  ⟨fun a b c h1 h2 => lexLeB_trans a.data b.data c.data h1 h2⟩

instance : IsAntisymm String strLe :=
  ⟨fun a b h1 h2 => String.toList_inj.mp (lexLeB_antisymm a.data b.data h1 h2)⟩

/-! ## Python string primitives used by the frontmatter parser -/

/-- Python whitespace as stripped by `str.strip()`. -/
def isPyWhitespace (c : Char) : Bool :=
  c = ' ' || c = '\t' || c = '\n' || c = '\r' || c = '\x0b' || c = '\x0c'

/-- Python `str.strip()`. -/
def pyStrip (s : String) : String :=
  String.mk (((s.data.dropWhile isPyWhitespace).reverse.dropWhile isPyWhitespace).reverse)

/-- Python `text.startswith(pre)` (structural embedding of
`String.startsWith`, which is byte-position based and does not reduce in the
kernel). -/
def pyStartsWith (pre s : String) : Bool := pre.data.isPrefixOf s.data

/-- Split a character list at the first (leftmost) occurrence of `sep`,
returning the part before and the part after the separator. -/
def splitFirst (sep : List Char) : List Char → Option (List Char × List Char)
  | [] => none
  | c :: cs =>
    if sep.isPrefixOf (c :: cs) then some ([], (c :: cs).drop sep.length)
    else
      match splitFirst sep cs with
      | some (pre, post) => some (c :: pre, post)
      | none => none

/-- Python `str.split(sep, maxsplit)` on character lists (for nonempty
`sep`): at most `maxsplit` leftmost non-overlapping separators are removed. -/
def pySplitN (sep : List Char) : Nat → List Char → List (List Char)
  | 0, l => [l]
  | n + 1, l =>
    match splitFirst sep l with
    | none => [l]
    | some (pre, post) => pre :: pySplitN sep n post

/-- Python `text.split(sep, maxsplit)` for strings. -/
def pySplit (sep : String) (maxsplit : Nat) (s : String) : List String :=
  (pySplitN sep.data maxsplit s.data).map String.mk

/-! ## Parsed YAML metadata

The YAML library itself is an external collaborator (spec section 1).  Its
observable behaviour on a frontmatter segment is a partial map from source
text to a key-value mapping: an absent entry models a raising
`yaml.safe_load`, and the mapping is the value of
`yaml.safe_load(segment) or \x7b\x7d` (so a None result is already the
empty mapping).  Values are modelled in the two shapes the code consumes:
scalars and lists of scalars (the model assumes `name`/`description` are
strings and `allowed-tools` is a list of strings when present, which is the
layout every consumer in the source expects). -/

inductive YVal where
  | s (v : String)
  | ls (v : List String)
deriving DecidableEq

abbrev YMap := List (String × YVal)

def YMap.lookupKey (m : YMap) (k : String) : Option YVal :=
  (m.find? (fun e => e.1 == k)).map (·.2)

/-- Python `metadata.get(k, dflt)` for a string-valued key. -/
def YMap.getStrD (m : YMap) (k : String) (dflt : String) : String :=
  match m.lookupKey k with
  | some (.s v) => v
  | _ => dflt

/-- Python `metadata.get(k, [])` for a list-valued key. -/
def YMap.getListD (m : YMap) (k : String) (dflt : List String) : List String :=
  match m.lookupKey k with
  | some (.ls v) => v
  | _ => dflt

/-! ## Filesystem model -/

/-- A snapshot of the filesystem: which directories exist (in directory
iteration order), which files exist with which raw text, and the YAML
decoder verdict for frontmatter segments. -/
structure FSys where
  dirs : List (List String)
  files : List (List String × String)
  yamls : List (String × YMap)

def FSys.isDir (fs : FSys) (p : List String) : Bool := fs.dirs.contains p

def FSys.fileContent (fs : FSys) (p : List String) : Option String :=
  (fs.files.find? (fun e => e.1 == p)).map (·.2)

def FSys.isFile (fs : FSys) (p : List String) : Bool := (fs.fileContent p).isSome

/-- Python `Path.exists()`: true for directories and files alike. -/
def FSys.entryExists (fs : FSys) (p : List String) : Bool :=
  fs.isDir p || fs.isFile p

/-- Result of `yaml.safe_load(src) or \x7b\x7d`; `none` models a raising
decoder. -/
def FSys.yamlDecode (fs : FSys) (src : String) : Option YMap :=
  (fs.yamls.find? (fun e => e.1 == src)).map (·.2)

/-- Immediate subdirectories of `d` (Python `d.iterdir()` with `is_dir()`),
in directory order. -/
def FSys.childDirs (fs : FSys) (d : List String) : List (List String) :=
  fs.dirs.filter (fun p => p.length = d.length + 1 && d.isPrefixOf p)

/-- Names of the immediate child files of `d` (Python `iterdir` with
`is_file()`). -/
def FSys.childFileNames (fs : FSys) (d : List String) : List String :=
  fs.files.filterMap
    (fun e => if e.1.length = d.length + 1 && d.isPrefixOf e.1 then e.1.getLast? else none)

/-- Well-formedness of a filesystem snapshot: every recorded path is made of
real directory-entry segments, no path is both a file and a directory, and
directory listings contain no duplicates. -/
def FSys.WFb (fs : FSys) : Bool :=
  fs.dirs.all (fun p => p.all normalSeg) &&
  fs.files.all (fun e => e.1.all normalSeg) &&
  fs.files.all (fun e => !(fs.dirs.contains e.1)) &&
  fs.dirs.Nodup

instance : DecidableEq FSys := by
  intro a b
  cases a
  cases b
  simp only [FSys.mk.injEq]
  infer_instance

/-! ## Frontmatter parser

Embedding of `langchain_skillkit/frontmatter.py`. -/

structure FrontmatterResult where
  metadata : YMap
  content : String
deriving DecidableEq

/-- Exceptions escaping file parsing: a missing file raises
`FileNotFoundError`, reading a directory raises `IsADirectoryError`, and a
malformed metadata block makes the YAML decoder raise. -/
inductive ParseErr where
  | fileNotFound
  | isADirectory
  | yamlError
deriving DecidableEq

instance {ε α : Type} [DecidableEq ε] [DecidableEq α] : DecidableEq (Except ε α) := fun a b =>
  match a, b with
  | .error e, .error f =>
    if h : e = f then isTrue (by rw [h]) else isFalse (fun hh => h (Except.error.inj hh))
  | .error _, .ok _ => isFalse (fun hh => Except.noConfusion hh)
  | .ok _, .error _ => isFalse (fun hh => Except.noConfusion hh)
  | .ok v, .ok w =>
    if h : v = w then isTrue (by rw [h]) else isFalse (fun hh => h (Except.ok.inj hh))

/-- Python `Path(path).read_text()`: the raw text, or the exception it
raises. -/
def FSys.readText (fs : FSys) (path : List String) : Except ParseErr String :=
  match fs.fileContent path with
  | some text => .ok text
  | none => .error (if fs.isDir path then .isADirectory else .fileNotFound)

/-- Embedding of `parse_frontmatter` (`langchain_skillkit/frontmatter.py`):
split on the first two `---` occurrences, decode the middle segment as YAML
metadata, strip the rest as body. -/
def parse_frontmatter (fs : FSys) (path : List String) : Except ParseErr FrontmatterResult :=
  match fs.readText path with
  | .error e => .error e
  | .ok text =>
    if ¬ pyStartsWith "---" text then .ok ⟨[], pyStrip text⟩
    else
      let parts := pySplit "---" 2 text
      if parts.length < 3 then .ok ⟨[], pyStrip text⟩
      else
        match fs.yamlDecode (parts.getD 1 "") with
        | none => .error .yamlError
        | some metadata => .ok ⟨metadata, pyStrip (parts.getD 2 "")⟩

/-- Modelled from the spec: `langchain_agent_skills/frontmatter.py` is not
in the source tree (only its importers `validate.py` and `types.py` are);
spec section 4.1 specifies a single frontmatter-parser contract and the
sibling `langchain_skillkit/frontmatter.py` implements exactly that
contract, so the missing module is modelled by the same function. -/
def parse_frontmatter_agent (fs : FSys) (path : List String) : Except ParseErr FrontmatterResult :=
  parse_frontmatter fs path

/-! ## Skill configurations -/

/-- Embedding of `langchain_agent_skills/types.py::SkillConfig`. -/
structure SkillConfig where
  name : String
  description : String
  instructions : String := ""
  allowed_tools : List String := []
  directory : List String := []
  reference_files : List String := []
deriving DecidableEq

/-- Embedding of `SkillConfig.from_directory`
(`langchain_agent_skills/types.py`). -/
def SkillConfig.from_directory (fs : FSys) (skill_dir : List String) :
    Except ParseErr SkillConfig :=
  match parse_frontmatter_agent fs (skill_dir ++ ["SKILL.md"]) with
  | .error e => .error e
  | .ok result =>
    let ref_files := (fs.childFileNames skill_dir).filter (fun n => n ≠ "SKILL.md")
    .ok { name := result.metadata.getStrD "name" (skill_dir.getLastD ""),
          description := result.metadata.getStrD "description" "",
          instructions := result.content,
          allowed_tools := result.metadata.getListD "allowed-tools" [],
          directory := skill_dir,
          reference_files := pySorted ref_files }

/-- Embedding of `langchain_skillkit/types.py::SkillConfig` (this variant
has no `allowed_tools` field). -/
structure SkillConfigK where
  name : String
  description : String
  instructions : String := ""
  directory : List String := []
  reference_files : List String := []
deriving DecidableEq

/-- Embedding of `SkillConfig.from_directory`
(`langchain_skillkit/types.py`). -/
def SkillConfigK.from_directory (fs : FSys) (skill_dir : List String) :
    Except ParseErr SkillConfigK :=
  match parse_frontmatter fs (skill_dir ++ ["SKILL.md"]) with
  | .error e => .error e
  | .ok result =>
    let ref_files := (fs.childFileNames skill_dir).filter (fun n => n ≠ "SKILL.md")
    .ok { name := result.metadata.getStrD "name" (skill_dir.getLastD ""),
          description := result.metadata.getStrD "description" "",
          instructions := result.content,
          directory := skill_dir,
          reference_files := pySorted ref_files }

/-! ## Tool registry

Embedding of `langchain_agent_skills/registry.py`.  A tool is opaque except
for its name; the dict is an association list in insertion order (keys are
unique once built through `register`, which overwrites by name). -/

structure Tool where
  name : String
  payload : String := ""
deriving DecidableEq

structure ToolRegistry where
  tools : List (String × Tool)
deriving DecidableEq

def ToolRegistry.lookupTool (r : ToolRegistry) (n : String) : Option Tool :=
  (r.tools.find? (fun e => e.1 == n)).map (·.2)

/-- Python `name in registry`. -/
def ToolRegistry.containsName (r : ToolRegistry) (n : String) : Bool :=
  r.tools.any (fun e => e.1 == n)

/-- Python `registry.get_tools(names)`: tools for the names found, silently
dropping unknown names, in the order of `names`. -/
def ToolRegistry.get_tools (r : ToolRegistry) (names : List String) : List Tool :=
  names.filterMap r.lookupTool

/-- Python `registry.all_tools()`. -/
def ToolRegistry.all_tools (r : ToolRegistry) : List Tool :=
  r.tools.map (·.2)

/-- Python `registry.all_names()`: a `set`, modelled as the (duplicate-free)
key list and consumed membership-wise. -/
def ToolRegistry.all_names (r : ToolRegistry) : List String :=
  r.tools.map (·.1)

/-! ## Tool invocation outcomes

Every tool body either returns a value, raises `ToolException` (which
`StructuredTool.from_function(..., handle_tool_error=True)` catches and
returns to the model as the tool-result text), or raises some other
exception, which nothing in the source catches. -/

inductive ToolResult (α : Type) where
  | ok (val : α)
  | toolError (msg : String)
  | crash (err : ParseErr)
deriving DecidableEq

/-- Whether the outcome is a caught, model-visible error. -/
def ToolResult.isToolError {α : Type} : ToolResult α → Bool
  | .toolError _ => true
  | _ => false

/-- Behaviour of the `handle_tool_error=True` wrapper: a `ToolException`
message becomes the (string) tool result shown to the model; any other
exception propagates out of the step. -/
def runWithHandler (r : ToolResult String) : Except ParseErr String :=
  match r with
  | .ok v => .ok v
  | .toolError msg => .ok msg
  | .crash e => .error e

/-! ## SkillToolkit

Embedding of `langchain_agent_skills/skill_toolkit.py`. -/

structure SkillToolkit where
  skills_dir : List String
  registry : ToolRegistry
deriving DecidableEq

/-- Python `self._resolve_skills_dir()`. -/
def SkillToolkit.resolveSkillsDir (tk : SkillToolkit) : List String :=
  resolvePath tk.skills_dir

/-- Python `self._list_skills()`: sorted names of immediate subdirectories
of the skills root that contain a `SKILL.md` entry. -/
def SkillToolkit.listSkills (fs : FSys) (tk : SkillToolkit) : List String :=
  let skills_dir := tk.resolveSkillsDir
  if ¬ fs.entryExists skills_dir then []
  else
    pySorted ((fs.childDirs skills_dir).filterMap
      (fun d => if fs.entryExists (d ++ ["SKILL.md"]) then d.getLast? else none))

def invalidSkillNameMsg (available : List String) (skill_name : String) : String :=
  s!"Invalid skill name {skill_name}. Available skills: " ++
    (if available.isEmpty then "none" else String.intercalate ", " available)

def skillNotFoundMsg (available : List String) (skill_name : String) : String :=
  s!"Skill {skill_name} not found. Available skills: " ++
    (if available.isEmpty then "none" else String.intercalate ", " available)

/-- The set literal `always_available` in `load_skill`, as a list consumed
membership-wise. -/
def alwaysAvailable : List String := ["load_skill", "read_reference"]

/-- The `updated_tools` computation in `load_skill`: sorted set union, where
an empty declared list unlocks the whole registry and a nonempty one
unlocks exactly itself plus the two always-available operations. -/
def updatedTools (skill_tools registryNames : List String) : List String :=
  pySortedSet
    (if skill_tools.isEmpty
      then skill_tools ++ alwaysAvailable ++ registryNames
      else skill_tools ++ alwaysAvailable)

/-- The state update `Command(update=...)` returned by `load_skill`. -/
structure CommandUpdate where
  available_tools : List String
  loaded_skills : List String
deriving DecidableEq

/-- Embedding of the `load_skill` tool body
(`skill_toolkit.py::_build_load_skill.load_skill`). -/
def load_skill (fs : FSys) (tk : SkillToolkit) (skill_name : String) :
    ToolResult CommandUpdate :=
  let skills_dir := tk.resolveSkillsDir
  if ¬ skillNameMatch skill_name then
    .toolError (invalidSkillNameMsg (tk.listSkills fs) skill_name)
  else
    let skill_path := resolvePath (skills_dir ++ [skill_name, "SKILL.md"])
    if ¬ startsWithBaseSep skill_path skills_dir then
      .toolError "Path traversal detected"
    else if ¬ fs.entryExists skill_path then
      .toolError (skillNotFoundMsg (tk.listSkills fs) skill_name)
    else
      match SkillConfig.from_directory fs (skills_dir ++ [skill_name]) with
      | .error e => .crash e
      | .ok config =>
        .ok { available_tools := updatedTools config.allowed_tools tk.registry.all_names,
              loaded_skills := [skill_name] }

/-- Embedding of the `read_reference` tool body
(`skill_toolkit.py::_build_read_reference.read_reference`). -/
def read_reference (fs : FSys) (tk : SkillToolkit) (skill_name file_name : String) :
    ToolResult String :=
  let skills_dir := tk.resolveSkillsDir
  if ¬ skillNameMatch skill_name then
    .toolError (invalidSkillNameMsg (tk.listSkills fs) skill_name)
  else if ¬ refNameMatch file_name then
    .toolError s!"Invalid file name {file_name}"
  else
    let file_path := resolvePath (skills_dir ++ [skill_name, file_name])
    if ¬ startsWithBaseSep file_path skills_dir then
      .toolError "Path traversal detected"
    else if ¬ fs.entryExists file_path then
      .toolError s!"Reference file {file_name} not found in skill {skill_name}"
    else
      match fs.fileContent file_path with
      | some content => .ok content
      | none => .crash .isADirectory

/-! ## SkillKit

Embedding of `langchain_skillkit/skill_kit.py`. -/

structure SkillKit where
  skills_dirs : List (List String)
deriving DecidableEq

/-- Python `self._resolve_skills_dirs()`: drop falsy entries, resolve the
rest. -/
def SkillKit.resolveSkillsDirs (kit : SkillKit) : List (List String) :=
  (kit.skills_dirs.filter (fun d => !d.isEmpty)).map resolvePath

/-- The candidate skill directories visited by `_build_skill_index`, in
root-then-subdirectory traversal order: for each existing root, its
immediate subdirectories containing a `SKILL.md` entry. -/
def skillIndexCandidates (fs : FSys) (roots : List (List String)) : List (List String) :=
  (roots.map (fun r =>
    if ¬ fs.entryExists r then []
    else (fs.childDirs r).filter (fun d => fs.entryExists (d ++ ["SKILL.md"])))).flatten

/-- The index-building fold of `_build_skill_index`: parse each candidate
and keep the first directory for each canonical name.  A parse failure is an
uncaught exception. -/
def buildSkillIndexAux (fs : FSys) :
    List (List String) → List (String × List String) →
      Except ParseErr (List (String × List String))
  | [], index => .ok index
  | d :: ds, index =>
    match SkillConfigK.from_directory fs d with
    | .error e => .error e
    | .ok config =>
      if (index.find? (fun e => e.1 == config.name)).isSome then
        buildSkillIndexAux fs ds index
      else
        buildSkillIndexAux fs ds (index ++ [(config.name, d)])

/-- Embedding of `SkillKit._build_skill_index`. -/
def SkillKit.buildSkillIndex (kit : SkillKit) (fs : FSys) :
    Except ParseErr (List (String × List String)) :=
  buildSkillIndexAux fs (skillIndexCandidates fs kit.resolveSkillsDirs) []

/-- Embedding of `SkillKit._list_skills`: sorted index keys. -/
def SkillKit.listSkills (kit : SkillKit) (fs : FSys) : Except ParseErr (List String) :=
  (kit.buildSkillIndex fs).map (fun ix => pySorted (ix.map (·.1)))

/-- Embedding of `SkillKit._find_skill_dir`. -/
def SkillKit.findSkillDir (kit : SkillKit) (fs : FSys) (skill_name : String) :
    Except ParseErr (Option (List String)) :=
  (kit.buildSkillIndex fs).map (fun ix => (ix.find? (fun e => e.1 == skill_name)).map (·.2))

/-- Embedding of the `Skill` tool body (`skill_kit.py::_build_skill_tool.skill`). -/
def skillTool (fs : FSys) (kit : SkillKit) (skill_name : String) : ToolResult String :=
  if ¬ skillNameMatch skill_name then
    match kit.listSkills fs with
    | .error e => .crash e
    | .ok available => .toolError (invalidSkillNameMsg available skill_name)
  else
    match kit.findSkillDir fs skill_name with
    | .error e => .crash e
    | .ok none =>
      match kit.listSkills fs with
      | .error e => .crash e
      | .ok available => .toolError (skillNotFoundMsg available skill_name)
    | .ok (some skill_dir) =>
      let skill_path := resolvePath (skill_dir ++ ["SKILL.md"])
      if ¬ startsWithBaseSep skill_path skill_dir.dropLast then
        .toolError "Path traversal detected"
      else
        match SkillConfigK.from_directory fs skill_dir with
        | .error e => .crash e
        | .ok config => .ok config.instructions

/-- Embedding of the `SkillRead` tool body
(`skill_kit.py::_build_skill_read_tool.skill_read`). -/
def skill_read (fs : FSys) (kit : SkillKit) (skill_name file_name : String) :
    ToolResult String :=
  if ¬ skillNameMatch skill_name then
    match kit.listSkills fs with
    | .error e => .crash e
    | .ok available => .toolError (invalidSkillNameMsg available skill_name)
  else if ¬ refNameMatch file_name then
    .toolError s!"Invalid file name {file_name}"
  else
    match kit.findSkillDir fs skill_name with
    | .error e => .crash e
    | .ok none => .toolError s!"Skill {skill_name} not found"
    | .ok (some skill_dir) =>
      let file_path := resolvePath (skill_dir ++ [file_name])
      if ¬ startsWithBaseSep file_path skill_dir.dropLast then
        .toolError "Path traversal detected"
      else if ¬ fs.entryExists file_path then
        .toolError s!"Reference file {file_name} not found in skill {skill_name}"
      else
        match fs.fileContent file_path with
        | some content => .ok content
        | none => .crash .isADirectory

/-! ## Conversation-state reducers

Embedding of `langchain_agent_skills/state.py`. -/

/-- Embedding of `merge_available_tools`: union as sets, return sorted.
The `current or []` idiom maps both an absent and an empty current value to
the empty list. -/
def merge_available_tools (current : Option (List String)) (update : List String) :
    List String :=
  pySortedSet ((current.getD []) ++ update)

/-- The reducer annotated on `loaded_skills` (`operator.add`). -/
def merge_loaded_skills (current update : List String) : List String :=
  current ++ update

/-! ## Agent step factory

Embedding of the `agent_node` closure in
`langchain_agent_skills/create_agent.py`.  The LLM is opaque: `invoke` is
the behaviour of `llm.bind_tools(ts).invoke` when applied to `some ts` and
of the bare `llm.invoke` when applied to `none`. -/

inductive Msg where
  | system (content : String)
  | chat (content : String)
deriving DecidableEq

/-- The incoming state fields `agent_node` reads; an absent
`available_tools`/`messages` key is the empty list (Python
`state.get(_, [])`). -/
structure AgentStateIn where
  messages : List Msg := []
  available_tools : List String := []
deriving DecidableEq

structure AgentUpdate where
  messages : List Msg
  sender : String
deriving DecidableEq

/-- Embedding of the `agent_node` closure: derive the active tool subset
from state, bind it (or nothing) to the model, prepend the system prompt,
invoke, and stamp the sender.  The Python `set(state.get("available_tools",
[]))` is consumed only through truthiness and membership, both of which
agree with the underlying list. -/
def agent_node (all_tools : List Tool) (system_prompt node_name : String)
    (invoke : Option (List Tool) → List Msg → Msg) (state : AgentStateIn) :
    AgentUpdate :=
  let available := state.available_tools
  let active_tools :=
    if available ≠ [] then all_tools.filter (fun t => available.contains t.name)
    else all_tools
  let bound := if active_tools ≠ [] then some active_tools else none
  let messages_for_llm := Msg.system system_prompt :: state.messages
  let response := invoke bound messages_for_llm
  { messages := [response], sender := node_name }

/-- The `all_tools` list assembled by `create_agent` before `agent_node` is
closed over it: registry tools restricted by the node config, then the two
toolkit tools, then the extra tools. -/
def createAgentAllTools (registry : ToolRegistry) (has_allowed_tools : Bool)
    (allowed_tools : List String) (toolkit_tools extras : List Tool) : List Tool :=
  (if has_allowed_tools then registry.get_tools allowed_tools else registry.all_tools) ++
    toolkit_tools ++ extras

/-! ## Configuration validator

Embedding of `langchain_agent_skills/validate.py`. -/

/-- Embedding of `langchain_agent_skills/types.py::NodeConfig`. -/
structure NodeConfig where
  name : String
  description : String
  system_prompt : String := ""
  skills : List String := []
  allowed_tools : List String := []
deriving DecidableEq

def unknownToolMsg (node : String) (tool : String) : String :=
  s!"Node {node} references unknown tool {tool}"

def missingSkillMsg (node : String) (skillName : String) : String :=
  s!"Node {node} references missing skill {skillName}: SKILL.md does not exist"

def skillUnknownToolMsg (skillName : String) (tool : String) : String :=
  s!"Skill {skillName} references unknown tool {tool}"

/-- The second loop of `validate_node_config`, over the declared skill
names: a missing descriptor yields one error and skips the skill; a present
one is parsed (a parse failure propagates) and each of its unknown tool
names yields one error. -/
def validateSkillsLoop (fs : FSys) (nodeName : String) (registry : ToolRegistry)
    (skills_dir : List String) : List String → Except ParseErr (List String)
  | [] => .ok []
  | skill_name :: rest =>
    let skill_md := skills_dir ++ [skill_name, "SKILL.md"]
    if ¬ fs.entryExists skill_md then
      (validateSkillsLoop fs nodeName registry skills_dir rest).map
        (fun es => missingSkillMsg nodeName skill_name :: es)
    else
      match parse_frontmatter_agent fs skill_md with
      | .error e => .error e
      | .ok result =>
        let skillErrs :=
          (result.metadata.getListD "allowed-tools" []).filterMap
            (fun t => if registry.containsName t then none
                      else some (skillUnknownToolMsg skill_name t))
        (validateSkillsLoop fs nodeName registry skills_dir rest).map
          (fun es => skillErrs ++ es)

/-- Embedding of `validate_node_config`: all violations collected, none
short-circuiting another. -/
def validate_node_config (fs : FSys) (config : NodeConfig) (registry : ToolRegistry)
    (skills_dir : List String) : Except ParseErr (List String) :=
  let toolErrs :=
    config.allowed_tools.filterMap
      (fun t => if registry.containsName t then none
                else some (unknownToolMsg config.name t))
  (validateSkillsLoop fs config.name registry skills_dir config.skills).map
    (fun es => toolErrs ++ es)

/-! ## Concrete fixtures used by the witness theorems

One skills root containing one skill, mirroring the market-sizing fixture of
the test suite, and a two-root world with a name collision. -/

def exReg : ToolRegistry :=
  ⟨[("web_search", ⟨"web_search", ""⟩), ("calculate", ⟨"calculate", ""⟩),
    ("sql_query", ⟨"sql_query", ""⟩)]⟩

def exYamlSeg : String :=
  "\nname: market-sizing\ndescription: Market sizing methodology\nallowed-tools: [web_search, calculate]\n"

def exSkillMd : String := "---" ++ exYamlSeg ++ "---\nInstructions."

def exMeta : YMap :=
  [("name", .s "market-sizing"), ("description", .s "Market sizing methodology"),
   ("allowed-tools", .ls ["web_search", "calculate"])]

def exFs : FSys :=
  { dirs := [["skills"], ["skills", "market-sizing"]],
    files := [(["skills", "market-sizing", "SKILL.md"], exSkillMd),
              (["skills", "market-sizing", "calculator.py"], "def calculate_tam(): pass")],
    yamls := [(exYamlSeg, exMeta)] }

def exTk : SkillToolkit := ⟨["skills"], exReg⟩

def exKit : SkillKit := ⟨[["skills"]]⟩

def exUpdate : CommandUpdate :=
  ⟨["calculate", "load_skill", "read_reference", "web_search"], ["market-sizing"]⟩

def exSharedYaml : String := "\nname: shared\n"

def exSharedMeta : YMap := [("name", .s "shared")]

def exFs2 : FSys :=
  { dirs := [["r1"], ["r2"], ["r1", "alpha"], ["r2", "beta"]],
    files := [(["r1", "alpha", "SKILL.md"], "---" ++ exSharedYaml ++ "---\nA"),
              (["r2", "beta", "SKILL.md"], "---" ++ exSharedYaml ++ "---\nB")],
    yamls := [(exSharedYaml, exSharedMeta)] }

def exKit2 : SkillKit := ⟨[["r1"], ["r2"]]⟩

def exNode : NodeConfig :=
  { name := "analyst", description := "Data analyst",
    skills := ["stakeholder-mapping"], allowed_tools := ["ghost_one", "ghost_two"] }

/-! ## Helper lemmas on the sorted-set representation -/

theorem mem_pySorted {a : String} {l : List String} :
    a ∈ pySorted l ↔ a ∈ l := List.mem_insertionSort _

theorem pySorted_sorted (l : List String) : (pySorted l).Sorted strLe :=
  List.sorted_insertionSort _ l

theorem mem_pySortedSet {a : String} {l : List String} :
    a ∈ pySortedSet l ↔ a ∈ l := by
  rw [pySortedSet, mem_pySorted, List.mem_dedup]

theorem pySortedSet_sorted (l : List String) : (pySortedSet l).Sorted strLe :=
  pySorted_sorted _

theorem pySortedSet_nodup (l : List String) : (pySortedSet l).Nodup :=
  ((List.perm_insertionSort _ _).nodup_iff).mpr l.nodup_dedup

theorem toFinset_pySortedSet (l : List String) :
    (pySortedSet l).toFinset = l.toFinset := by
  ext x
  simp [mem_pySortedSet]

/-- The sorted-set representation is canonical: two lists with the same
elements produce the same sorted duplicate-free list. -/
theorem pySortedSet_congr {l₁ l₂ : List String}
    (h : ∀ x, x ∈ l₁ ↔ x ∈ l₂) : pySortedSet l₁ = pySortedSet l₂ := by
  apply List.eq_of_perm_of_sorted _ (pySortedSet_sorted l₁) (pySortedSet_sorted l₂)
  rw [List.perm_ext_iff_of_nodup (pySortedSet_nodup l₁) (pySortedSet_nodup l₂)]
  intro x
  rw [mem_pySortedSet, mem_pySortedSet]
  exact h x

/-- Successful `load_skill` calls are exactly the parses that succeed after
the three checks, and the update they return. -/
theorem load_skill_ok_iff (fs : FSys) (tk : SkillToolkit) (sn : String)
    (u : CommandUpdate) :
    load_skill fs tk sn = .ok u ↔
      ∃ config, skillNameMatch sn = true ∧
        startsWithBaseSep (resolvePath (tk.resolveSkillsDir ++ [sn, "SKILL.md"]))
          tk.resolveSkillsDir = true ∧
        fs.entryExists (resolvePath (tk.resolveSkillsDir ++ [sn, "SKILL.md"])) = true ∧
        SkillConfig.from_directory fs (tk.resolveSkillsDir ++ [sn]) = .ok config ∧
        u = ⟨updatedTools config.allowed_tools tk.registry.all_names, [sn]⟩ := by
  by_cases h1 : skillNameMatch sn = true
  · by_cases h2 : startsWithBaseSep (resolvePath (tk.resolveSkillsDir ++ [sn, "SKILL.md"]))
        tk.resolveSkillsDir = true
    · by_cases h3 : fs.entryExists (resolvePath (tk.resolveSkillsDir ++ [sn, "SKILL.md"])) = true
      · rcases hcfg : SkillConfig.from_directory fs (tk.resolveSkillsDir ++ [sn]) with e | config
        · simp [load_skill, h1, h2, h3, hcfg]
        · simp only [load_skill, h1, h2, h3, hcfg, not_true_eq_false, if_false,
            ToolResult.ok.injEq, Except.ok.injEq]
          constructor
          · intro h
            exact ⟨config, trivial, trivial, trivial, rfl, h.symm⟩
          · rintro ⟨config2, -, -, -, hc, hu⟩
            cases hc
            exact hu.symm
      · simp [load_skill, h1, h2, h3]
    · simp [load_skill, h1, h2]
  · simp [load_skill, h1]

/-- The parsed configuration of the market-sizing fixture skill. -/
def exCfg : SkillConfig :=
  { name := "market-sizing", description := "Market sizing methodology",
    instructions := "Instructions.", allowed_tools := ["web_search", "calculate"],
    directory := ["skills", "market-sizing"], reference_files := ["calculator.py"] }

/-- C3: a successful `load_skill` with an empty declared `allowed_tools`
returns an `available_tools` update equal (as a set) to all registry names
plus the two gateway operations; a nonempty declared list returns exactly
the declared set plus the two gateway operations and nothing else. -/
theorem C3_load_skill_available_tools (fs : FSys) (tk : SkillToolkit) (sn : String)
    (config : SkillConfig) (u : CommandUpdate)
    (hcfg : SkillConfig.from_directory fs (tk.resolveSkillsDir ++ [sn]) = .ok config)
    (hok : load_skill fs tk sn = .ok u) :
    (config.allowed_tools = [] →
      u.available_tools.toFinset
        = tk.registry.all_names.toFinset ∪ {"load_skill", "read_reference"}) ∧
    (config.allowed_tools ≠ [] →
      u.available_tools.toFinset
        = config.allowed_tools.toFinset ∪ {"load_skill", "read_reference"}) := by
  obtain ⟨config2, -, -, -, hcfg2, hu⟩ := (load_skill_ok_iff fs tk sn u).mp hok
  rw [hcfg] at hcfg2
  cases hcfg2
  subst hu
  constructor
  · intro he
    simp only [updatedTools, he, List.isEmpty_nil, if_true, toFinset_pySortedSet]
    ext x
    simp [alwaysAvailable]
    tauto
  · intro he
    have : config.allowed_tools.isEmpty = false := by
      cases h : config.allowed_tools with
      | nil => exact absurd h he
      | cons a l => simp
    simp only [updatedTools, this, Bool.false_eq_true, if_false, toFinset_pySortedSet]
    ext x
    simp [alwaysAvailable]

set_option maxRecDepth 100000 in
/-- Witness for C3: loading the market-sizing fixture unlocks exactly its
two declared tools plus the two gateway operations, and not the registered
`sql_query`. -/
theorem C3_witness :
    load_skill exFs exTk "market-sizing" = .ok exUpdate ∧
    exUpdate.available_tools.toFinset
      = (["web_search", "calculate"] : List String).toFinset
          ∪ {"load_skill", "read_reference"} ∧
    "sql_query" ∉ exUpdate.available_tools := by
  refine ⟨by decide, ?_, by decide⟩
  have h := C3_load_skill_available_tools exFs exTk "market-sizing" exCfg exUpdate
    (by decide) (by decide)
  simpa using h.2 (by decide)

/-- One merge step never loses a tool name. -/
theorem merge_available_tools_mono (s : List String) (u : List String) :
    s.toFinset ⊆ (merge_available_tools (some s) u).toFinset := by
  intro x hx
  rw [List.mem_toFinset] at hx ⊢
  rw [merge_available_tools, mem_pySortedSet, Option.getD_some, List.mem_append]
  exact .inl hx

/-- C5: applying the `available_tools` merge reducer twice with the same
update yields the same state as applying it once; `loaded_skills` gains
exactly one appended entry per successful load; and across any sequence of
merges `available_tools` never loses an element. -/
theorem C5_state_merge_algebra :
    (∀ (current : Option (List String)) (u : List String),
      merge_available_tools (some (merge_available_tools current u)) u
        = merge_available_tools current u) ∧
    (∀ (fs : FSys) (tk : SkillToolkit) (sn : String) (u : CommandUpdate)
        (prior : List String), load_skill fs tk sn = .ok u →
      u.loaded_skills = [sn] ∧
      merge_loaded_skills prior u.loaded_skills = prior ++ [sn] ∧
      (merge_loaded_skills prior u.loaded_skills).length = prior.length + 1) ∧
    (∀ (s : List String) (updates : List (List String)),
      s.toFinset ⊆
        (updates.foldl (fun acc u => merge_available_tools (some acc) u) s).toFinset) := by
  refine ⟨?_, ?_, ?_⟩
  · intro current u
    apply pySortedSet_congr
    intro x
    simp only [merge_available_tools, Option.getD_some, List.mem_append, mem_pySortedSet]
    tauto
  · intro fs tk sn u prior hok
    obtain ⟨config, -, -, -, -, hu⟩ := (load_skill_ok_iff fs tk sn u).mp hok
    subst hu
    exact ⟨rfl, rfl, by simp [merge_loaded_skills]⟩
  · intro s updates
    induction updates generalizing s with
    | nil => exact fun x hx => hx
    | cons u us ih =>
      exact fun x hx =>
        ih (merge_available_tools (some s) u) (merge_available_tools_mono s u hx)

set_option maxRecDepth 100000 in
/-- Witness for C5 at concrete inputs: a double merge of the market-sizing
load result collapses to a single merge, and its loaded-skills entry is the
single skill name. -/
theorem C5_witness :
    merge_available_tools
        (some (merge_available_tools (some ["alpha"]) exUpdate.available_tools))
        exUpdate.available_tools
      = merge_available_tools (some ["alpha"]) exUpdate.available_tools ∧
    exUpdate.loaded_skills = ["market-sizing"] ∧
    merge_loaded_skills ["alpha"] exUpdate.loaded_skills = ["alpha", "market-sizing"] := by
  refine ⟨C5_state_merge_algebra.1 (some ["alpha"]) exUpdate.available_tools, ?_, ?_⟩
  · exact (C5_state_merge_algebra.2.1 exFs exTk "market-sizing" exUpdate ["alpha"]
      (by decide)).1
  · exact (C5_state_merge_algebra.2.1 exFs exTk "market-sizing" exUpdate ["alpha"]
      (by decide)).2.1

/-- C10: both producers of `available_tools` emit a canonical
representation: the update computed by `load_skill` and the output of the
merge reducer are lexicographically sorted and duplicate-free, and the
reducer output depends only on the set of names given to it, not on their
order or multiplicity. -/
theorem C10_canonical_available_tools :
    (∀ (fs : FSys) (tk : SkillToolkit) (sn : String) (u : CommandUpdate),
      load_skill fs tk sn = .ok u →
        u.available_tools.Sorted strLe ∧ u.available_tools.Nodup) ∧
    (∀ (current : Option (List String)) (update : List String),
      (merge_available_tools current update).Sorted strLe ∧
      (merge_available_tools current update).Nodup) ∧
    (∀ (c₁ c₂ : Option (List String)) (u₁ u₂ : List String),
      ((c₁.getD []) ++ u₁).toFinset = ((c₂.getD []) ++ u₂).toFinset →
      merge_available_tools c₁ u₁ = merge_available_tools c₂ u₂) := by
  refine ⟨?_, ?_, ?_⟩
  · intro fs tk sn u hok
    obtain ⟨config, -, -, -, -, hu⟩ := (load_skill_ok_iff fs tk sn u).mp hok
    subst hu
    exact ⟨pySortedSet_sorted _, pySortedSet_nodup _⟩
  · intro current update
    exact ⟨pySortedSet_sorted _, pySortedSet_nodup _⟩
  · intro c₁ c₂ u₁ u₂ h
    apply pySortedSet_congr
    intro x
    rw [← List.mem_toFinset, ← List.mem_toFinset (l := c₂.getD [] ++ u₂), h]

set_option maxRecDepth 100000 in
/-- Witness for C10: the market-sizing load result is sorted and
duplicate-free, and two differently-ordered inputs with equal name sets
merge to the same state. -/
theorem C10_witness :
    exUpdate.available_tools.Sorted strLe ∧ exUpdate.available_tools.Nodup ∧
    merge_available_tools (some ["beta", "alpha"]) ["gamma"]
      = merge_available_tools (some ["gamma", "alpha"]) ["beta", "alpha"] := by
  refine ⟨?_, ?_, ?_⟩
  · exact (C10_canonical_available_tools.1 exFs exTk "market-sizing" exUpdate (by decide)).1
  · exact (C10_canonical_available_tools.1 exFs exTk "market-sizing" exUpdate (by decide)).2
  · exact C10_canonical_available_tools.2.2 (some ["beta", "alpha"])
      (some ["gamma", "alpha"]) ["gamma"] ["beta", "alpha"] (by decide)

/-- Splitting with maxsplit `n` yields at most `n + 1` parts. -/
theorem pySplitN_length_le (sep : List Char) :
    ∀ (n : Nat) (l : List Char), (pySplitN sep n l).length ≤ n + 1
  | 0, _ => by simp [pySplitN]
  | n + 1, l => by
    unfold pySplitN
    rcases splitFirst sep l with _ | ⟨pre, post⟩
    · simp
    · simpa using pySplitN_length_le sep n post

/-- C9: the frontmatter parser raises a not-found error exactly when the
source path does not exist; existing text that does not open with the fixed
marker parses to empty metadata plus the whole text trimmed; text opening
with the marker is split into at most three segments on the first two
marker occurrences, the metadata segment is decoded (a missing or empty
decoding giving the empty mapping, a decoder failure propagating), and the
remainder is the trimmed body. -/
theorem C9_parse_frontmatter (fs : FSys) (path : List String) :
    (parse_frontmatter fs path = .error .fileNotFound ↔ fs.entryExists path = false) ∧
    (∀ text, fs.readText path = .ok text →
      (pyStartsWith "---" text = false →
        parse_frontmatter fs path = .ok ⟨[], pyStrip text⟩) ∧
      (pyStartsWith "---" text = true →
        (pySplit "---" 2 text).length ≤ 3 ∧
        ((pySplit "---" 2 text).length < 3 →
          parse_frontmatter fs path = .ok ⟨[], pyStrip text⟩) ∧
        (3 ≤ (pySplit "---" 2 text).length →
          (fs.yamlDecode ((pySplit "---" 2 text).getD 1 "") = none →
            parse_frontmatter fs path = .error .yamlError) ∧
          (∀ m, fs.yamlDecode ((pySplit "---" 2 text).getD 1 "") = some m →
            parse_frontmatter fs path
              = .ok ⟨m, pyStrip ((pySplit "---" 2 text).getD 2 "")⟩)))) := by
  constructor
  · rcases hc : fs.fileContent path with _ | text
    · cases hd : fs.isDir path with
      | false =>
        simp [parse_frontmatter, FSys.readText, FSys.entryExists, FSys.isFile, hc, hd]
      | true =>
        simp [parse_frontmatter, FSys.readText, FSys.entryExists, FSys.isFile, hc, hd]
    · have hex : fs.entryExists path = true := by
        simp [FSys.entryExists, FSys.isFile, hc]
      rw [hex]
      simp only [Bool.true_eq_false, iff_false]
      intro hcontra
      rw [parse_frontmatter, FSys.readText, hc] at hcontra
      by_cases h1 : pyStartsWith "---" text = true
      · simp only [h1, not_true_eq_false, if_false] at hcontra
        split at hcontra
        · exact Except.noConfusion hcontra
        · rcases hy : fs.yamlDecode ((pySplit "---" 2 text).getD 1 "") with _ | m
          · rw [hy] at hcontra
            cases hcontra
          · rw [hy] at hcontra
            exact Except.noConfusion hcontra
      · simp only [eq_false_of_ne_true h1, Bool.false_eq_true, not_false_eq_true,
          if_true] at hcontra
        exact Except.noConfusion hcontra
  · intro text htext
    have hc : fs.fileContent path = some text := by
      rw [FSys.readText] at htext
      rcases hcc : fs.fileContent path with _ | t
      · rw [hcc] at htext
        exact Except.noConfusion htext
      · rw [hcc] at htext
        cases htext
        rfl
    refine ⟨?_, ?_⟩
    · intro h1
      simp [parse_frontmatter, FSys.readText, hc, h1]
    · intro h1
      refine ⟨by simpa [pySplit] using pySplitN_length_le "---".data 2 text.data, ?_, ?_⟩
      · intro hlt
        simp [parse_frontmatter, FSys.readText, hc, h1, hlt]
      · intro hge
        have hlt : ¬ (pySplit "---" 2 text).length < 3 := by omega
        constructor
        · intro hy
          rw [List.getD_eq_getElem?_getD] at hy
          simp [parse_frontmatter, FSys.readText, hc, h1, hlt, hy]
        · intro m hy
          rw [List.getD_eq_getElem?_getD] at hy
          simp [parse_frontmatter, FSys.readText, hc, h1, hlt, hy]

set_option maxRecDepth 100000 in
/-- Witness for C9: a missing path raises not-found, and the market-sizing
descriptor parses into its metadata mapping and trimmed body. -/
theorem C9_witness :
    parse_frontmatter exFs ["skills", "missing", "SKILL.md"] = .error .fileNotFound ∧
    parse_frontmatter exFs ["skills", "market-sizing", "SKILL.md"]
      = .ok ⟨exMeta, "Instructions."⟩ := by
  constructor
  · exact (C9_parse_frontmatter exFs ["skills", "missing", "SKILL.md"]).1.mpr (by decide)
  · have h := ((C9_parse_frontmatter exFs
      ["skills", "market-sizing", "SKILL.md"]).2 exSkillMd (by decide)).2 (by decide)
    have h2 := (h.2.2 (by decide)).2 exMeta (by decide)
    rw [h2]
    decide

/-- Counting a filter-map that drops satisfied predicates. -/
theorem length_filterMap_if {α β : Type} (l : List α) (p : α → Bool) (f : α → β) :
    (l.filterMap (fun a => if p a then none else some (f a))).length
      = l.countP (fun a => !(p a)) := by
  induction l with
  | nil => rfl
  | cons a l ih =>
    by_cases h : p a = true
    · simp [List.filterMap_cons, List.countP_cons, h, ih]
    · simp [List.filterMap_cons, List.countP_cons, eq_false_of_ne_true h, ih]

/-- Per-skill error contribution of the validator. -/
def skillErrCount (fs : FSys) (registry : ToolRegistry) (skills_dir : List String)
    (sn : String) : Nat :=
  if fs.entryExists (skills_dir ++ [sn, "SKILL.md"]) = false then 1
  else
    match parse_frontmatter_agent fs (skills_dir ++ [sn, "SKILL.md"]) with
    | .ok r => (r.metadata.getListD "allowed-tools" []).countP
        (fun t => !(registry.containsName t))
    | .error _ => 0

/-- The skills loop returns one missing-skill error per unresolvable skill
and one unknown-tool error per unregistered tool of each resolvable skill,
with no short-circuiting. -/
theorem validateSkillsLoop_length (fs : FSys) (nodeName : String)
    (registry : ToolRegistry) (skills_dir : List String) :
    ∀ skills : List String,
      (∀ sn ∈ skills, fs.entryExists (skills_dir ++ [sn, "SKILL.md"]) = true →
        ∃ r, parse_frontmatter_agent fs (skills_dir ++ [sn, "SKILL.md"]) = .ok r) →
      ∃ errs, validateSkillsLoop fs nodeName registry skills_dir skills = .ok errs ∧
        errs.length = (skills.map (skillErrCount fs registry skills_dir)).sum := by
  intro skills
  induction skills with
  | nil => exact fun _ => ⟨[], rfl, rfl⟩
  | cons sn rest ih =>
    intro hparse
    obtain ⟨es, hes, hlen⟩ := ih (fun x hx => hparse x (List.mem_cons_of_mem _ hx))
    cases hex : fs.entryExists (skills_dir ++ [sn, "SKILL.md"]) with
    | false =>
      refine ⟨missingSkillMsg nodeName sn :: es, ?_, ?_⟩
      · simp only [validateSkillsLoop, hex, Bool.false_eq_true, not_false_eq_true,
          if_true, hes]
        rfl
      · simp only [List.map_cons, List.sum_cons, List.length_cons, hlen, skillErrCount,
          hex, Bool.false_eq_true, not_false_eq_true, if_pos]
        omega
    | true =>
      obtain ⟨r, hr⟩ := hparse sn (List.mem_cons_self _ _) hex
      refine ⟨(r.metadata.getListD "allowed-tools" []).filterMap
          (fun t => if registry.containsName t then none
                    else some (skillUnknownToolMsg sn t)) ++ es, ?_, ?_⟩
      · simp only [validateSkillsLoop, hex, not_true_eq_false, if_false, hr, hes]
        rfl
      · simp [hlen, skillErrCount, hex, hr, length_filterMap_if]

/-- C6: `validate_node_config` collects all violations independently: its
error-list length is the number of unknown tools in the node allow-list,
plus one per missing skill, plus one per unknown tool in each resolvable
skill's own allow-list. -/
theorem C6_validator_completeness (fs : FSys) (config : NodeConfig)
    (registry : ToolRegistry) (skills_dir : List String)
    (hparse : ∀ sn ∈ config.skills,
      fs.entryExists (skills_dir ++ [sn, "SKILL.md"]) = true →
      ∃ r, parse_frontmatter_agent fs (skills_dir ++ [sn, "SKILL.md"]) = .ok r) :
    ∃ errs, validate_node_config fs config registry skills_dir = .ok errs ∧
      errs.length =
        config.allowed_tools.countP (fun t => !(registry.containsName t)) +
        (config.skills.map (skillErrCount fs registry skills_dir)).sum := by
  obtain ⟨es, hes, hlen⟩ :=
    validateSkillsLoop_length fs config.name registry skills_dir config.skills hparse
  refine ⟨config.allowed_tools.filterMap
      (fun t => if registry.containsName t then none
                else some (unknownToolMsg config.name t)) ++ es, ?_, ?_⟩
  · simp only [validate_node_config, hes]
    rfl
  · simp [hlen, length_filterMap_if]

/-- Witness for C6: a node referencing two unknown tools and one missing
skill validates to exactly three error strings. -/
theorem C6_witness :
    ∃ errs, validate_node_config exFs exNode exReg ["skills"] = .ok errs ∧
      errs.length = 3 := by
  obtain ⟨errs, he, hl⟩ := C6_validator_completeness exFs exNode exReg ["skills"] (by
    intro sn hsn h
    simp only [exNode, List.mem_singleton] at hsn
    subst hsn
    exact absurd h (by decide))
  refine ⟨errs, he, ?_⟩
  rw [hl]
  decide

/-- C8: an agent step derives its active tool set from the incoming state:
an empty (or absent, which defaults to empty) `available_tools` binds the
full static-plus-gateway tool list, a nonempty one binds exactly the tools
of that list whose name appears in it, and when zero tools survive the
model is invoked unbound; the response is stamped with the step's name. -/
theorem C8_agent_node_tool_binding (all_tools : List Tool)
    (system_prompt node_name : String)
    (invoke : Option (List Tool) → List Msg → Msg) (state : AgentStateIn) :
    agent_node all_tools system_prompt node_name invoke state =
      let active :=
        if state.available_tools = [] then all_tools
        else all_tools.filter (fun t => decide (t.name ∈ state.available_tools))
      { messages := [invoke (if active = [] then none else some active)
          (Msg.system system_prompt :: state.messages)],
        sender := node_name } := by
  by_cases h : state.available_tools = []
  · simp [agent_node, h]
  · have hf : (fun t : Tool => state.available_tools.contains t.name)
        = (fun t : Tool => decide (t.name ∈ state.available_tools)) := by
      funext t
      simp [List.contains_eq_any_beq, List.elem_eq_mem, List.any_beq]
    simp only [agent_node, h, ne_eq, not_false_eq_true, if_true, if_false, hf, ite_not]

/-- Canonical name the index uses for a candidate directory (the parsed
frontmatter name, or the directory name if the metadata omits it). -/
def canonicalNameOf (fs : FSys) (d : List String) : Option String :=
  (SkillConfigK.from_directory fs d).toOption.map (·.name)

/-- Invariant of the index-building fold: the final index extends the
accumulator, keeps keys unique, and resolves each name to the accumulator
entry if present, otherwise to the first candidate declaring that name. -/
theorem buildSkillIndexAux_spec (fs : FSys) :
    ∀ (cands : List (List String)) (index : List (String × List String)),
      (∀ d ∈ cands, ∃ c, SkillConfigK.from_directory fs d = .ok c) →
      (index.map (·.1)).Nodup →
      ∃ ix, buildSkillIndexAux fs cands index = .ok ix ∧
        (ix.map (·.1)).Nodup ∧
        ∀ name, (ix.find? (fun e => e.1 == name)).map (·.2)
          = ((index.find? (fun e => e.1 == name)).map (·.2)).or
              (cands.find? (fun d => canonicalNameOf fs d == some name)) := by
  intro cands
  induction cands with
  | nil =>
    intro index _ hnd
    exact ⟨index, rfl, hnd, fun name => by simp [buildSkillIndexAux]⟩
  | cons d ds ih =>
    intro index hp hnd
    obtain ⟨c, hc⟩ := hp d (List.mem_cons_self _ _)
    have hds : ∀ x ∈ ds, ∃ cc, SkillConfigK.from_directory fs x = .ok cc :=
      fun x hx => hp x (List.mem_cons_of_mem _ hx)
    have hcanon : canonicalNameOf fs d = some c.name := by
      rw [canonicalNameOf, hc]
      rfl
    cases hfound : (index.find? (fun e => e.1 == c.name)).isSome with
    | true =>
      obtain ⟨ix, hix, hnd2, hlook⟩ := ih index hds hnd
      refine ⟨ix, ?_, hnd2, ?_⟩
      · simp only [buildSkillIndexAux, hc, hfound, if_true]
        exact hix
      · intro name
        rw [hlook name]
        by_cases hn : c.name = name
        · rw [List.find?_cons_of_pos _ (by simp [hcanon, hn])]
          rw [hn] at hfound
          have hsome : ((index.find? (fun e => e.1 == name)).map (fun x => x.2)).isSome := by
            simpa using hfound
          rw [Option.or_of_isSome hsome, Option.or_of_isSome hsome]
        · rw [List.find?_cons_of_neg _ (by simp [hcanon, hn])]
    | false =>
      have hnotkey : c.name ∉ index.map (·.1) := by
        intro hmem
        obtain ⟨e, he, heq⟩ := List.mem_map.mp hmem
        have : (index.find? (fun e => e.1 == c.name)).isSome := by
          rw [List.find?_isSome]
          exact ⟨e, he, by simp [heq]⟩
        rw [hfound] at this
        exact Bool.noConfusion this
      have hnd2 : ((index ++ [(c.name, d)]).map (·.1)).Nodup := by
        rw [List.map_append, List.nodup_append]
        exact ⟨hnd, List.nodup_singleton _, by simpa using hnotkey⟩
      obtain ⟨ix, hix, hnd3, hlook⟩ := ih (index ++ [(c.name, d)]) hds hnd2
      refine ⟨ix, ?_, hnd3, ?_⟩
      · simp only [buildSkillIndexAux, hc, hfound, Bool.false_eq_true, if_false]
        exact hix
      · intro name
        rw [hlook name, List.find?_append, List.find?_singleton]
        by_cases hn : c.name = name
        · rw [if_pos (by simp [hn]), List.find?_cons_of_pos _ (by simp [hcanon, hn])]
          have hidxn : index.find? (fun e => e.1 == name) = none := by
            rw [← hn]
            rcases hidx : index.find? (fun e => e.1 == c.name) with _ | e
            · exact hidx
            · rw [hidx] at hfound
              exact absurd hfound (by simp)
          rw [hidxn]
          simp
        · rw [if_neg (by simp [hn]), List.find?_cons_of_neg _ (by simp [hcanon, hn])]
          rw [Option.or_none]

/-- C7: discovery maps each canonical skill name to exactly one directory
(index keys are unique), and the directory recorded for a name is the first
candidate in root-then-subdirectory traversal order that declares it; later
duplicates are silently ignored. -/
theorem C7_skill_index_first_wins (fs : FSys) (kit : SkillKit)
    (hparse : ∀ d ∈ skillIndexCandidates fs kit.resolveSkillsDirs,
      ∃ c, SkillConfigK.from_directory fs d = .ok c) :
    ∃ ix, kit.buildSkillIndex fs = .ok ix ∧
      (ix.map (·.1)).Nodup ∧
      ∀ name, (ix.find? (fun e => e.1 == name)).map (·.2)
        = (skillIndexCandidates fs kit.resolveSkillsDirs).find?
            (fun d => canonicalNameOf fs d == some name) := by
  obtain ⟨ix, hix, hnd, hlook⟩ :=
    buildSkillIndexAux_spec fs (skillIndexCandidates fs kit.resolveSkillsDirs) []
      hparse (by simp)
  refine ⟨ix, hix, hnd, fun name => ?_⟩
  rw [hlook name]
  simp

set_option maxRecDepth 100000 in
/-- Witness for C7: two roots both declaring the canonical name `shared`;
the index holds exactly one entry for it, mapped to the first root's
directory. -/
theorem C7_witness :
    ∃ ix, exKit2.buildSkillIndex exFs2 = .ok ix ∧
      (ix.map (·.1)).Nodup ∧
      (ix.find? (fun e => e.1 == "shared")).map (·.2) = some ["r1", "alpha"] := by
  obtain ⟨ix, hix, hnd, hlook⟩ := C7_skill_index_first_wins exFs2 exKit2 (by
    intro d hd
    have hcand : skillIndexCandidates exFs2 exKit2.resolveSkillsDirs
        = [["r1", "alpha"], ["r2", "beta"]] := by decide
    rw [hcand] at hd
    simp only [List.mem_cons, List.not_mem_nil, or_false] at hd
    rcases hd with rfl | rfl
    · exact ⟨_, rfl⟩
    · exact ⟨_, rfl⟩)
  refine ⟨ix, hix, hnd, ?_⟩
  rw [hlook "shared"]
  decide

/-! ## Path-containment lemmas -/

theorem resolveGo_not_dot :
    ∀ (p acc : List String), (∀ x ∈ acc, x ≠ "." ∧ x ≠ "..") →
      ∀ x ∈ resolveGo acc p, x ≠ "." ∧ x ≠ ".."
  | [], acc, h => h
  | c :: cs, acc, h => by
    rw [resolveGo]
    by_cases h1 : c = "."
    · rw [if_pos h1]
      exact resolveGo_not_dot cs acc h
    · rw [if_neg h1]
      by_cases h2 : c = ".."
      · rw [if_pos h2]
        exact resolveGo_not_dot cs acc.dropLast
          (fun x hx => h x ((List.dropLast_sublist acc).subset hx))
      · rw [if_neg h2]
        refine resolveGo_not_dot cs (acc ++ [c]) (fun x hx => ?_)
        rcases List.mem_append.mp hx with h3 | h3
        · exact h x h3
        · rw [List.mem_singleton.mp h3]
          exact ⟨h1, h2⟩

theorem resolveGo_keeps_normal :
    ∀ (p acc : List String), (∀ x ∈ p, x ≠ "." ∧ x ≠ "..") →
      resolveGo acc p = acc ++ p
  | [], acc, _ => by simp [resolveGo]
  | c :: cs, acc, h => by
    have hc := h c (List.mem_cons_self _ _)
    rw [resolveGo, if_neg hc.1, if_neg hc.2,
      resolveGo_keeps_normal cs (acc ++ [c]) (fun x hx => h x (List.mem_cons_of_mem _ hx))]
    simp

/-- Output of path resolution never contains a dot component. -/
theorem resolvePath_not_dot (p : List String) :
    ∀ x ∈ resolvePath p, x ≠ "." ∧ x ≠ ".." :=
  resolveGo_not_dot p [] (by simp)

theorem resolvePath_idem (p : List String) :
    resolvePath (resolvePath p) = resolvePath p := by
  rw [resolvePath, resolveGo_keeps_normal (resolvePath p) [] (resolvePath_not_dot p)]
  rfl

theorem resolveGo_nil_extend (root : List String) (a : String)
    (ha : a ≠ "." ∧ a ≠ "..") :
    resolveGo [] (resolvePath root ++ [a]) = resolvePath root ++ [a] := by
  have h := resolveGo_keeps_normal (resolvePath root ++ [a]) [] ?hn
  · simpa using h
  case hn =>
    intro x hx
    rcases List.mem_append.mp hx with h | h
    · exact resolvePath_not_dot root x h
    · rw [List.mem_singleton.mp h]
      exact ha

/-- Resolving a resolved base extended by two non-dot segments appends them. -/
theorem resolvePath_append_two (root : List String) (a b : String)
    (ha : a ≠ "." ∧ a ≠ "..") (hb : b ≠ "." ∧ b ≠ "..") :
    resolvePath (resolvePath root ++ [a, b]) = resolvePath root ++ [a, b] := by
  have h0 : resolvePath root ++ [a, b] = (resolvePath root ++ [a]) ++ [b] := by simp
  rw [resolvePath, h0, resolveGo_append]
  rw [show resolveGo [] (resolvePath root ++ [a]) = resolvePath root ++ [a] from
    resolveGo_nil_extend root a ha]
  rw [resolveGo_normal_single _ b hb.1 hb.2]

/-- Resolving a resolved base extended by a non-dot segment and a parent
reference returns to the base. -/
theorem resolvePath_append_dotdot (root : List String) (a : String)
    (ha : a ≠ "." ∧ a ≠ "..") :
    resolvePath (resolvePath root ++ [a, ".."]) = resolvePath root := by
  have h1 : resolvePath root ++ [a, ".."] = (resolvePath root ++ [a]) ++ [".."] := by simp
  rw [resolvePath, h1, resolveGo_append]
  rw [show resolveGo [] (resolvePath root ++ [a]) = resolvePath root ++ [a] from
    resolveGo_nil_extend root a ha]
  rw [resolveGo_dotdot, List.dropLast_concat]

/-- Resolving a resolved base extended by a non-dot segment and a current
directory reference drops only the dot. -/
theorem resolvePath_append_dot (root : List String) (a : String)
    (ha : a ≠ "." ∧ a ≠ "..") :
    resolvePath (resolvePath root ++ [a, "."]) = resolvePath root ++ [a] := by
  have h1 : resolvePath root ++ [a, "."] = (resolvePath root ++ [a]) ++ ["."] := by simp
  rw [resolvePath, h1, resolveGo_append]
  rw [show resolveGo [] (resolvePath root ++ [a]) = resolvePath root ++ [a] from
    resolveGo_nil_extend root a ha]
  rw [resolveGo_dot]

theorem startsWithBaseSep_iff (p base : List String) :
    startsWithBaseSep p base = true ↔ strictlyInside p base := by
  rw [startsWithBaseSep, strictlyInside, Bool.and_eq_true, List.isPrefixOf_iff_prefix,
    decide_eq_true_eq]

theorem startsWithBaseSep_append (root rest : List String) (h : rest ≠ []) :
    startsWithBaseSep (root ++ rest) root = true := by
  rw [startsWithBaseSep_iff]
  refine ⟨⟨rest, rfl⟩, ?_⟩
  rw [List.length_append]
  cases rest with
  | nil => exact absurd rfl h
  | cons a l => simp

theorem startsWithBaseSep_self (root : List String) :
    startsWithBaseSep root root = false := by
  rw [startsWithBaseSep]
  simp

/-- Every discovery candidate is an immediate subdirectory of one of the
roots and is a recorded directory. -/
theorem skillIndexCandidates_spec (fs : FSys) (roots : List (List String)) :
    ∀ d ∈ skillIndexCandidates fs roots,
      ∃ r ∈ roots, r <+: d ∧ d.length = r.length + 1 ∧ d ∈ fs.dirs := by
  intro d hd
  rw [skillIndexCandidates, List.mem_flatten] at hd
  obtain ⟨l, hl, hdl⟩ := hd
  rw [List.mem_map] at hl
  obtain ⟨r, hr, rfl⟩ := hl
  split at hdl
  · exact absurd hdl (List.not_mem_nil d)
  · rw [List.mem_filter] at hdl
    obtain ⟨hd1, -⟩ := hdl
    rw [FSys.childDirs, List.mem_filter] at hd1
    obtain ⟨hdirs, hcond⟩ := hd1
    rw [Bool.and_eq_true, decide_eq_true_eq] at hcond
    exact ⟨r, hr, List.isPrefixOf_iff_prefix.mp hcond.2, hcond.1, hdirs⟩

/-- Directories recorded by the index fold come from the accumulator or the
candidate list. -/
theorem buildSkillIndexAux_dirs_subset (fs : FSys) :
    ∀ (cands : List (List String)) (index ix : List (String × List String)),
      buildSkillIndexAux fs cands index = .ok ix →
      ∀ e ∈ ix, e ∈ index ∨ e.2 ∈ cands := by
  intro cands
  induction cands with
  | nil =>
    intro index ix h e he
    rw [buildSkillIndexAux] at h
    cases h
    exact .inl he
  | cons d ds ih =>
    intro index ix h e he
    rw [buildSkillIndexAux] at h
    rcases hc : SkillConfigK.from_directory fs d with err | c
    · rw [hc] at h
      exact Except.noConfusion h
    · rw [hc] at h
      dsimp only at h
      by_cases hf : (index.find? (fun x => x.1 == c.name)).isSome = true
      · rw [if_pos hf] at h
        rcases ih index ix h e he with h1 | h1
        · exact .inl h1
        · exact .inr (List.mem_cons_of_mem _ h1)
      · rw [if_neg hf] at h
        rcases ih _ ix h e he with h1 | h1
        · rcases List.mem_append.mp h1 with h2 | h2
          · exact .inl h2
          · rw [List.mem_singleton.mp h2]
            exact .inr (List.mem_cons_self _ _)
        · exact .inr (List.mem_cons_of_mem _ h1)

/-- A directory returned by the skill lookup is one of the discovery
candidates. -/
theorem findSkillDir_ok_mem (fs : FSys) (kit : SkillKit) (sn : String)
    (dir : List String) (h : kit.findSkillDir fs sn = .ok (some dir)) :
    dir ∈ skillIndexCandidates fs kit.resolveSkillsDirs := by
  rw [SkillKit.findSkillDir] at h
  rcases hb : kit.buildSkillIndex fs with err | ix
  · rw [hb] at h
    exact Except.noConfusion h
  · rw [hb] at h
    have h2 : (ix.find? (fun e => e.1 == sn)).map (·.2) = some dir := Except.ok.inj h
    rcases hfind : ix.find? (fun e => e.1 == sn) with _ | e
    · rw [hfind] at h2
      exact Option.noConfusion h2
    · rw [hfind] at h2
      have he : e ∈ ix := List.mem_of_find?_eq_some hfind
      rcases buildSkillIndexAux_dirs_subset fs _ [] ix hb e he with h3 | h3
      · exact absurd h3 (List.not_mem_nil e)
      · rw [← Option.some.inj h2]
        exact h3

/-- In a well-formed filesystem, recorded directory paths contain no dot
components. -/
theorem WFb_dir_not_dot {fs : FSys} (hwf : fs.WFb = true) {d : List String}
    (hd : d ∈ fs.dirs) : ∀ x ∈ d, x ≠ "." ∧ x ≠ ".." := by
  rw [FSys.WFb] at hwf
  simp only [Bool.and_eq_true, List.all_eq_true] at hwf
  intro x hx
  have h := hwf.1.1.1 d hd x hx
  rw [normalSeg] at h
  simp only [Bool.and_eq_true, decide_eq_true_eq] at h
  exact ⟨h.1.1.2, h.1.2⟩

/-- A successful `read_reference` passed every check and read exactly the
resolved path. -/
theorem read_reference_ok_shape (fs : FSys) (tk : SkillToolkit) (sn fn content : String)
    (h : read_reference fs tk sn fn = .ok content) :
    skillNameMatch sn = true ∧ refNameMatch fn = true ∧
    startsWithBaseSep (resolvePath (tk.resolveSkillsDir ++ [sn, fn]))
      tk.resolveSkillsDir = true ∧
    fs.fileContent (resolvePath (tk.resolveSkillsDir ++ [sn, fn])) = some content := by
  rw [read_reference] at h
  split at h
  · exact ToolResult.noConfusion h
  · split at h
    · exact ToolResult.noConfusion h
    · dsimp only at h
      split at h
      · exact ToolResult.noConfusion h
      · split at h
        · exact ToolResult.noConfusion h
        · split at h
          · rename_i hfc
            cases h
            simp only [not_not] at *
            exact ⟨by assumption, by assumption, by assumption, hfc⟩
          · exact ToolResult.noConfusion h

/-- A successful `skill_read` found a skill directory, passed the
containment check against that directory's parent, and read exactly the
resolved path. -/
theorem skill_read_ok_shape (fs : FSys) (kit : SkillKit) (sn fn content : String)
    (h : skill_read fs kit sn fn = .ok content) :
    ∃ dir, kit.findSkillDir fs sn = .ok (some dir) ∧
      refNameMatch fn = true ∧
      startsWithBaseSep (resolvePath (dir ++ [fn])) dir.dropLast = true ∧
      fs.fileContent (resolvePath (dir ++ [fn])) = some content := by
  rw [skill_read] at h
  split at h
  · split at h
    · exact ToolResult.noConfusion h
    · exact ToolResult.noConfusion h
  · split at h
    · exact ToolResult.noConfusion h
    · split at h
      · exact ToolResult.noConfusion h
      · exact ToolResult.noConfusion h
      · dsimp only at h
        split at h
        · exact ToolResult.noConfusion h
        · split at h
          · exact ToolResult.noConfusion h
          · split at h
            · rename_i hfc
              cases h
              simp only [not_not] at *
              refine ⟨_, by assumption, by assumption, by assumption, hfc⟩
            · exact ToolResult.noConfusion h

/-- C1: gateway file access is confined to the configured skills roots.  An
invalid skill name fails closed; a validated name makes the descriptor path
of `load_skill` resolve to a strict descendant of the root; every
`read_reference` call either fails with a tool error or reads a path that
resolves strictly inside the root; discovery only reads descriptors
strictly inside the roots; and the index-based `Skill` and `SkillRead`
operations only return content read from strictly inside a configured
root. -/
theorem C1_containment :
    (∀ (fs : FSys) (tk : SkillToolkit) (sn : String),
      (skillNameMatch sn = false ∧ (load_skill fs tk sn).isToolError = true) ∨
      (skillNameMatch sn = true ∧
        resolvePath (tk.resolveSkillsDir ++ [sn, "SKILL.md"])
          = tk.resolveSkillsDir ++ [sn, "SKILL.md"] ∧
        strictlyInside (resolvePath (tk.resolveSkillsDir ++ [sn, "SKILL.md"]))
          tk.resolveSkillsDir)) ∧
    (∀ (fs : FSys) (tk : SkillToolkit) (sn fn : String),
      (read_reference fs tk sn fn).isToolError = true ∨
      (strictlyInside (resolvePath (tk.resolveSkillsDir ++ [sn, fn]))
          tk.resolveSkillsDir ∧
        ∀ content, read_reference fs tk sn fn = .ok content →
          fs.fileContent (resolvePath (tk.resolveSkillsDir ++ [sn, fn]))
            = some content)) ∧
    (∀ (fs : FSys) (roots : List (List String)),
      ∀ d ∈ skillIndexCandidates fs roots,
        ∃ r ∈ roots, strictlyInside (d ++ ["SKILL.md"]) r) ∧
    (∀ (fs : FSys) (kit : SkillKit) (sn instr : String),
      skillTool fs kit sn = .ok instr →
      ∃ dir, kit.findSkillDir fs sn = .ok (some dir) ∧
        ∃ r ∈ kit.resolveSkillsDirs, strictlyInside (dir ++ ["SKILL.md"]) r) ∧
    (∀ (fs : FSys) (kit : SkillKit) (sn fn content : String), fs.WFb = true →
      skill_read fs kit sn fn = .ok content →
      ∃ dir r, r ∈ kit.resolveSkillsDirs ∧
        kit.findSkillDir fs sn = .ok (some dir) ∧
        strictlyInside (resolvePath (dir ++ [fn])) r ∧
        fs.fileContent (resolvePath (dir ++ [fn])) = some content) := by
  refine ⟨?_, ?_, ?_, ?_, ?_⟩
  · intro fs tk sn
    by_cases hm : skillNameMatch sn = true
    · right
      have hd := skillNameMatch_ne_dot hm
      have heq : resolvePath (tk.resolveSkillsDir ++ [sn, "SKILL.md"])
          = tk.resolveSkillsDir ++ [sn, "SKILL.md"] := by
        rw [SkillToolkit.resolveSkillsDir]
        exact resolvePath_append_two tk.skills_dir sn "SKILL.md" ⟨hd.1, hd.2.1⟩ (by decide)
      refine ⟨hm, heq, ?_⟩
      rw [heq]
      exact ⟨⟨[sn, "SKILL.md"], rfl⟩, by simp⟩
    · left
      refine ⟨eq_false_of_ne_true hm, ?_⟩
      rw [load_skill, if_pos hm]
      rfl
  · intro fs tk sn fn
    by_cases hm : skillNameMatch sn = true
    · by_cases hf : refNameMatch fn = true
      · have hd := skillNameMatch_ne_dot hm
        by_cases hdd : fn = ".."
        · left
          subst hdd
          have hpath : resolvePath (tk.resolveSkillsDir ++ [sn, ".."])
              = tk.resolveSkillsDir := by
            rw [SkillToolkit.resolveSkillsDir]
            exact resolvePath_append_dotdot tk.skills_dir sn ⟨hd.1, hd.2.1⟩
          rw [read_reference, if_neg (by simpa using hm), if_neg (by simpa using hf)]
          dsimp only
          rw [hpath, startsWithBaseSep_self, if_pos (by simp)]
          rfl
        · by_cases hdot : fn = "."
          · right
            subst hdot
            have hpath : resolvePath (tk.resolveSkillsDir ++ [sn, "."])
                = tk.resolveSkillsDir ++ [sn] := by
              rw [SkillToolkit.resolveSkillsDir]
              exact resolvePath_append_dot tk.skills_dir sn ⟨hd.1, hd.2.1⟩
            constructor
            · rw [hpath]
              exact ⟨⟨[sn], rfl⟩, by simp⟩
            · intro content hok
              exact (read_reference_ok_shape fs tk sn "." content hok).2.2.2
          · right
            have hpath : resolvePath (tk.resolveSkillsDir ++ [sn, fn])
                = tk.resolveSkillsDir ++ [sn, fn] := by
              rw [SkillToolkit.resolveSkillsDir]
              exact resolvePath_append_two tk.skills_dir sn fn ⟨hd.1, hd.2.1⟩ ⟨hdot, hdd⟩
            constructor
            · rw [hpath]
              exact ⟨⟨[sn, fn], rfl⟩, by simp⟩
            · intro content hok
              exact (read_reference_ok_shape fs tk sn fn content hok).2.2.2
      · left
        rw [read_reference, if_neg (by simpa using hm), if_pos hf]
        rfl
    · left
      rw [read_reference, if_pos hm]
      rfl
  · intro fs roots d hd
    obtain ⟨r, hr, hpre, hlen, -⟩ := skillIndexCandidates_spec fs roots d hd
    obtain ⟨t, rfl⟩ := hpre
    refine ⟨r, hr, ⟨t ++ ["SKILL.md"], by simp⟩, ?_⟩
    simp only [List.length_append, List.length_singleton]
    omega
  · intro fs kit sn instr h
    rw [skillTool] at h
    split at h
    · split at h
      · exact ToolResult.noConfusion h
      · exact ToolResult.noConfusion h
    · split at h
      · exact ToolResult.noConfusion h
      · split at h
        · exact ToolResult.noConfusion h
        · exact ToolResult.noConfusion h
      · rename_i skill_dir hdir
        obtain ⟨r, hr, hpre, hlen, -⟩ := skillIndexCandidates_spec fs _ skill_dir
          (findSkillDir_ok_mem fs kit sn skill_dir hdir)
        obtain ⟨t, rfl⟩ := hpre
        refine ⟨_, hdir, r, hr, ⟨t ++ ["SKILL.md"], by simp⟩, ?_⟩
        simp only [List.length_append, List.length_singleton]
        omega
  · intro fs kit sn fn content hwf h
    obtain ⟨dir, hdir, hfn, hsep, hfc⟩ := skill_read_ok_shape fs kit sn fn content h
    obtain ⟨r, hr, hpre, hlen, hdirs⟩ := skillIndexCandidates_spec fs _ dir
      (findSkillDir_ok_mem fs kit sn dir hdir)
    obtain ⟨t, rfl⟩ := hpre
    have ht : t.length = 1 := by
      rw [List.length_append] at hlen
      omega
    obtain ⟨x, rfl⟩ := List.length_eq_one.mp ht
    have hnorm : ∀ s ∈ r ++ [x], s ≠ "." ∧ s ≠ ".." := WFb_dir_not_dot hwf hdirs
    have hres : resolveGo [] (r ++ [x]) = r ++ [x] := by
      simpa using resolveGo_keeps_normal (r ++ [x]) [] hnorm
    have hstep : resolvePath ((r ++ [x]) ++ [fn]) = resolveGo (r ++ [x]) [fn] := by
      rw [resolvePath, resolveGo_append, hres]
    refine ⟨r ++ [x], r, hr, hdir, ?_, hfc⟩
    by_cases hdd : fn = ".."
    · subst hdd
      rw [hstep, resolveGo_dotdot, List.dropLast_concat, startsWithBaseSep_self] at hsep
      exact Bool.noConfusion hsep
    · by_cases hdot : fn = "."
      · subst hdot
        rw [hstep, resolveGo_dot]
        exact ⟨⟨[x], rfl⟩, by simp⟩
      · rw [hstep, resolveGo_normal_single _ fn hdot hdd]
        refine ⟨⟨[x, fn], by simp⟩, ?_⟩
        simp only [List.length_append]
        omega

set_option maxRecDepth 100000 in
/-- Witness for C1: a successful reference read of the fixture returns
content from a path strictly inside the configured root, and a parent
traversal in the file name is rejected with a tool error. -/
theorem C1_witness :
    (∃ dir r, r ∈ exKit.resolveSkillsDirs ∧
      exKit.findSkillDir exFs "market-sizing" = .ok (some dir) ∧
      strictlyInside (resolvePath (dir ++ ["calculator.py"])) r ∧
      exFs.fileContent (resolvePath (dir ++ ["calculator.py"]))
        = some "def calculate_tam(): pass") ∧
    (read_reference exFs exTk "market-sizing" "..").isToolError = true := by
  constructor
  · exact C1_containment.2.2.2.2 exFs exKit "market-sizing" "calculator.py"
      "def calculate_tam(): pass" (by decide) (by decide)
  · rcases C1_containment.2.1 exFs exTk "market-sizing" ".." with h | ⟨hin, -⟩
    · exact h
    · exact absurd hin (by decide)

set_option maxRecDepth 100000 in
/-- Counterexample for C2: with file name `"."` the resolved path
`skill_directory / file_name` is the skill directory itself, so it is not
strictly inside the owning skill directory; yet the operation is not
rejected with an error — the containment check, made against the parent
directory rather than the skill directory, passes, and the operation
proceeds to the read, where it crashes on reading a directory.  Both the
index-based and the root-based read operations behave this way. -/
theorem C2_counterexample :
    ¬ strictlyInside (resolvePath (["skills", "market-sizing"] ++ ["."]))
        ["skills", "market-sizing"] ∧
    skill_read exFs exKit "market-sizing" "." = .crash .isADirectory ∧
    (skill_read exFs exKit "market-sizing" ".").isToolError = false ∧
    read_reference exFs exTk "market-sizing" "." = .crash .isADirectory := by
  decide

/-- C2 amended: the containment check of the read operation runs against
the skills root (the parent of the skill directory), not against the
skill's own directory.  A resolved path failing that parent check is
rejected with the traversal error, and every successful read returns
content from the owning skill directory itself or strictly inside it; the
file name resolving to the skill directory itself (rather than strictly
inside) passes the check. -/
theorem C2_amended_containment (fs : FSys) (kit : SkillKit) (sn fn : String)
    (dir : List String) (hwf : fs.WFb = true)
    (hname : skillNameMatch sn = true) (hfile : refNameMatch fn = true)
    (hdir : kit.findSkillDir fs sn = .ok (some dir)) :
    (startsWithBaseSep (resolvePath (dir ++ [fn])) dir.dropLast = false →
      skill_read fs kit sn fn = .toolError "Path traversal detected") ∧
    (∀ content, skill_read fs kit sn fn = .ok content →
      dir <+: resolvePath (dir ++ [fn]) ∧
      fs.fileContent (resolvePath (dir ++ [fn])) = some content) := by
  constructor
  · intro hsep
    rw [skill_read, if_neg (by simpa using hname), if_neg (by simpa using hfile), hdir]
    dsimp only
    rw [hsep, if_pos (by simp)]
  · intro content h
    obtain ⟨dir2, hdir2, -, hsep, hfc⟩ := skill_read_ok_shape fs kit sn fn content h
    rw [hdir] at hdir2
    cases Option.some.inj (Except.ok.inj hdir2)
    obtain ⟨r, hr, hpre, hlen, hdirs⟩ := skillIndexCandidates_spec fs _ dir
      (findSkillDir_ok_mem fs kit sn dir hdir)
    obtain ⟨t, rfl⟩ := hpre
    have ht : t.length = 1 := by
      rw [List.length_append] at hlen
      omega
    obtain ⟨x, rfl⟩ := List.length_eq_one.mp ht
    have hnorm : ∀ s ∈ r ++ [x], s ≠ "." ∧ s ≠ ".." := WFb_dir_not_dot hwf hdirs
    have hres : resolveGo [] (r ++ [x]) = r ++ [x] := by
      simpa using resolveGo_keeps_normal (r ++ [x]) [] hnorm
    have hstep : resolvePath ((r ++ [x]) ++ [fn]) = resolveGo (r ++ [x]) [fn] := by
      rw [resolvePath, resolveGo_append, hres]
    refine ⟨?_, hfc⟩
    by_cases hdd : fn = ".."
    · subst hdd
      rw [hstep, resolveGo_dotdot, List.dropLast_concat, startsWithBaseSep_self] at hsep
      exact Bool.noConfusion hsep
    · by_cases hdot : fn = "."
      · subst hdot
        rw [hstep, resolveGo_dot]
      · rw [hstep, resolveGo_normal_single _ fn hdot hdd]
        exact ⟨[fn], rfl⟩

set_option maxRecDepth 100000 in
/-- Witness for the amended C2: a parent-reference file name is rejected
with the traversal error, and a successful read of the fixture reference
file stays within the owning skill directory. -/
theorem C2_witness :
    skill_read exFs exKit "market-sizing" ".." = .toolError "Path traversal detected" ∧
    (["skills", "market-sizing"] : List String) <+:
      resolvePath (["skills", "market-sizing"] ++ ["calculator.py"]) ∧
    exFs.fileContent (resolvePath (["skills", "market-sizing"] ++ ["calculator.py"]))
      = some "def calculate_tam(): pass" := by
  have h1 := C2_amended_containment exFs exKit "market-sizing" ".."
    ["skills", "market-sizing"] (by decide) (by decide) (by decide) (by decide)
  have h2 := C2_amended_containment exFs exKit "market-sizing" "calculator.py"
    ["skills", "market-sizing"] (by decide) (by decide) (by decide) (by decide)
  obtain ⟨hp, hc⟩ := h2.2 "def calculate_tam(): pass" (by decide)
  exact ⟨h1.1 (by decide), hp, hc⟩

/-- C4: every enumerated runtime failure of the gateway operations — an
invalid skill name, a skill that is not found, a path-traversal rejection,
an invalid file name, a missing reference file — raises `ToolException`,
and the `handle_tool_error=True` wrapper turns any `ToolException` into
tool-result text instead of an escaping exception.  (The invalid-name path
of the index-based variant first lists the available skills, which assumes
the skill descriptors under the roots parse.) -/
theorem C4_failures_are_tool_errors :
    (∀ (fs : FSys) (tk : SkillToolkit) (sn : String),
      skillNameMatch sn = false → (load_skill fs tk sn).isToolError = true) ∧
    (∀ (fs : FSys) (tk : SkillToolkit) (sn : String),
      skillNameMatch sn = true →
      fs.entryExists (resolvePath (tk.resolveSkillsDir ++ [sn, "SKILL.md"])) = false →
      (load_skill fs tk sn).isToolError = true) ∧
    (∀ (fs : FSys) (tk : SkillToolkit) (sn fn : String),
      skillNameMatch sn = false → (read_reference fs tk sn fn).isToolError = true) ∧
    (∀ (fs : FSys) (tk : SkillToolkit) (sn fn : String),
      skillNameMatch sn = true → refNameMatch fn = false →
      (read_reference fs tk sn fn).isToolError = true) ∧
    (∀ (fs : FSys) (tk : SkillToolkit) (sn fn : String),
      skillNameMatch sn = true → refNameMatch fn = true →
      startsWithBaseSep (resolvePath (tk.resolveSkillsDir ++ [sn, fn]))
        tk.resolveSkillsDir = false →
      (read_reference fs tk sn fn).isToolError = true) ∧
    (∀ (fs : FSys) (tk : SkillToolkit) (sn fn : String),
      skillNameMatch sn = true → refNameMatch fn = true →
      startsWithBaseSep (resolvePath (tk.resolveSkillsDir ++ [sn, fn]))
        tk.resolveSkillsDir = true →
      fs.entryExists (resolvePath (tk.resolveSkillsDir ++ [sn, fn])) = false →
      (read_reference fs tk sn fn).isToolError = true) ∧
    (∀ (fs : FSys) (kit : SkillKit) (sn fn : String),
      skillNameMatch sn = false →
      (∀ d ∈ skillIndexCandidates fs kit.resolveSkillsDirs,
        ∃ c, SkillConfigK.from_directory fs d = .ok c) →
      (skill_read fs kit sn fn).isToolError = true) ∧
    (∀ (fs : FSys) (kit : SkillKit) (sn fn : String),
      skillNameMatch sn = true → refNameMatch fn = false →
      (skill_read fs kit sn fn).isToolError = true) ∧
    (∀ (fs : FSys) (kit : SkillKit) (sn fn : String),
      skillNameMatch sn = true → refNameMatch fn = true →
      kit.findSkillDir fs sn = .ok none →
      (skill_read fs kit sn fn).isToolError = true) ∧
    (∀ (fs : FSys) (kit : SkillKit) (sn fn : String) (dir : List String),
      skillNameMatch sn = true → refNameMatch fn = true →
      kit.findSkillDir fs sn = .ok (some dir) →
      startsWithBaseSep (resolvePath (dir ++ [fn])) dir.dropLast = true →
      fs.entryExists (resolvePath (dir ++ [fn])) = false →
      (skill_read fs kit sn fn).isToolError = true) ∧
    (∀ r : ToolResult String, r.isToolError = true →
      ∃ msg, runWithHandler r = .ok msg) := by
  refine ⟨?_, ?_, ?_, ?_, ?_, ?_, ?_, ?_, ?_, ?_, ?_⟩
  · intro fs tk sn h
    rw [load_skill, if_pos (by simp [h])]
    rfl
  · intro fs tk sn h1 h2
    rw [load_skill, if_neg (by simpa using h1)]
    dsimp only
    have hd := skillNameMatch_ne_dot h1
    have heq : resolvePath (tk.resolveSkillsDir ++ [sn, "SKILL.md"])
        = tk.resolveSkillsDir ++ [sn, "SKILL.md"] := by
      rw [SkillToolkit.resolveSkillsDir]
      exact resolvePath_append_two tk.skills_dir sn "SKILL.md" ⟨hd.1, hd.2.1⟩ (by decide)
    rw [if_neg (by
      rw [heq, startsWithBaseSep_append _ _ (by simp)]
      simp)]
    rw [if_pos (by rw [h2]; simp)]
    rfl
  · intro fs tk sn fn h
    rw [read_reference, if_pos (by simp [h])]
    rfl
  · intro fs tk sn fn h1 h2
    rw [read_reference, if_neg (by simpa using h1), if_pos (by simp [h2])]
    rfl
  · intro fs tk sn fn h1 h2 h3
    rw [read_reference, if_neg (by simpa using h1), if_neg (by simpa using h2)]
    dsimp only
    rw [if_pos (by rw [h3]; simp)]
    rfl
  · intro fs tk sn fn h1 h2 h3 h4
    rw [read_reference, if_neg (by simpa using h1), if_neg (by simpa using h2)]
    dsimp only
    rw [if_neg (by rw [h3]; simp), if_pos (by rw [h4]; simp)]
    rfl
  · intro fs kit sn fn h1 hp
    obtain ⟨ix, hix, -, -⟩ := buildSkillIndexAux_spec fs _ [] hp (by simp)
    rw [skill_read, if_pos (by simp [h1]), SkillKit.listSkills,
      SkillKit.buildSkillIndex, hix]
    rfl
  · intro fs kit sn fn h1 h2
    rw [skill_read, if_neg (by simpa using h1), if_pos (by simp [h2])]
    rfl
  · intro fs kit sn fn h1 h2 hdir
    rw [skill_read, if_neg (by simpa using h1), if_neg (by simpa using h2), hdir]
    rfl
  · intro fs kit sn fn dir h1 h2 hdir h3 h4
    rw [skill_read, if_neg (by simpa using h1), if_neg (by simpa using h2), hdir]
    dsimp only
    rw [if_neg (by rw [h3]; simp), if_pos (by rw [h4]; simp)]
    rfl
  · intro r h
    cases r with
    | ok v => exact Bool.noConfusion h
    | toolError msg => exact ⟨msg, rfl⟩
    | crash e => exact Bool.noConfusion h

set_option maxRecDepth 100000 in
/-- Witness for C4: concrete invalid, missing and traversal inputs all
produce caught tool errors, and the wrapper returns them as text. -/
theorem C4_witness :
    (load_skill exFs exTk "../etc/passwd").isToolError = true ∧
    (load_skill exFs exTk "nonexistent").isToolError = true ∧
    (read_reference exFs exTk "market-sizing" "nosuch.txt").isToolError = true ∧
    (skill_read exFs exKit "market-sizing" "nosuch.txt").isToolError = true ∧
    (∃ msg, runWithHandler (read_reference exFs exTk "market-sizing" "nosuch.txt")
      = .ok msg) := by
  refine ⟨?_, ?_, ?_, ?_, ?_⟩
  · exact C4_failures_are_tool_errors.1 exFs exTk "../etc/passwd" (by decide)
  · exact C4_failures_are_tool_errors.2.1 exFs exTk "nonexistent" (by decide) (by decide)
  · exact C4_failures_are_tool_errors.2.2.2.2.2.1 exFs exTk "market-sizing" "nosuch.txt"
      (by decide) (by decide) (by decide) (by decide)
  · exact C4_failures_are_tool_errors.2.2.2.2.2.2.2.2.2.1 exFs exKit "market-sizing"
      "nosuch.txt" ["skills", "market-sizing"] (by decide) (by decide) (by decide)
      (by decide) (by decide)
  · exact C4_failures_are_tool_errors.2.2.2.2.2.2.2.2.2.2
      (read_reference exFs exTk "market-sizing" "nosuch.txt")
      (C4_failures_are_tool_errors.2.2.2.2.2.1 exFs exTk "market-sizing" "nosuch.txt"
        (by decide) (by decide) (by decide) (by decide))

end SkillGate
